import Mathlib

/-!
Verification of the signed-request trading client and TWAP executor.

Shallow embedding of the Python sources:
  - `src/validators.py`        (input validator)
  - `src/binance_client.py`    (signed request builder + exchange client)
  - `src/config.py`            (configuration defaults)
  - `src/advanced/twap.py`     (TWAP executor)

Numeric order quantities and prices are Python floats in the source; they are
modelled as rationals (`ℚ`).  Byte strings (the payloads of `urlencode`,
HMAC-SHA256 and `hexdigest`) are modelled as `List Nat` with every element
`< 256`.  Network effects are modelled by passing the response of each HTTP
exchange as an explicit argument (an oracle), and the TWAP loop additionally
records an event trace of validation calls, order placements and suspensions.
Python string methods (`strip`, `upper`, `isalnum`) are modelled directly on
the character list of a `String`, on the ASCII fragment the CLI uses.
-/

set_option autoImplicit false

namespace BinanceSpec

deriving instance DecidableEq for Except

/-! ## Python string primitives -/

/-- The whitespace characters `str.strip` removes. -/
def pyIsSpace (c : Char) : Bool :=
  c = ' ' || c = '\t' || c = '\n' || c = '\r' || c = '\x0b' || c = '\x0c'

/-- Python `str.strip()`. -/
def pyStrip (s : String) : String :=
  ⟨((s.data.dropWhile pyIsSpace).reverse.dropWhile pyIsSpace).reverse⟩

/-- Python `str.upper()` (ASCII fragment). -/
def pyUpper (s : String) : String :=
  ⟨s.data.map Char.toUpper⟩

/-- Python `str.isalnum()` (ASCII fragment): nonempty and every character
alphanumeric. -/
def pyIsalnum (s : String) : Bool :=
  !s.data.isEmpty && s.data.all Char.isAlphanum

/-- Python `len` on a string. -/
def pyLen (s : String) : Nat :=
  s.data.length

/-! ## Validator (`src/validators.py`) -/

/-- Mirrors the `OrderInput` dataclass returned by `validate_order_input`. -/
structure OrderInput where
  symbol : String
  side : String
  order_type : String
  quantity : ℚ
  price : Option ℚ := none
  stop_price : Option ℚ := none
  deriving Repr, DecidableEq

/-- Mirrors the `ValidationError` exception (the spec's `InvalidInput`);
carries the caller-visible message. -/
structure ValidationError where
  msg : String
  deriving Repr, DecidableEq

/-- Mirrors `_normalize_symbol`: strip, uppercase, then check alphanumeric and
length in [5, 20]. -/
def normalize_symbol (symbol : String) : Except ValidationError String :=
  let s := pyUpper (pyStrip symbol)
  if !pyIsalnum s then
    .error ⟨"Symbol must be alphanumeric, e.g. BTCUSDT."⟩
  else if pyLen s < 5 || pyLen s > 20 then
    .error ⟨"Symbol length must be between 5 and 20 characters."⟩
  else
    .ok s

/-- Mirrors `_normalize_side`. -/
def normalize_side (side : String) : Except ValidationError String :=
  let s := pyUpper (pyStrip side)
  if s = "BUY" || s = "SELL" then .ok s
  else .error ⟨"Side must be BUY or SELL."⟩

/-- Mirrors `_normalize_order_type`. -/
def normalize_order_type (order_type : String) : Except ValidationError String :=
  let t := pyUpper (pyStrip order_type)
  if t = "MARKET" || t = "LIMIT" || t = "STOP_LIMIT" then .ok t
  else .error ⟨"Order type must be MARKET, LIMIT, or STOP_LIMIT."⟩

/-- Python `x is None or x <= 0` for an optional numeric field. -/
def noneOrNonpos (x : Option ℚ) : Bool :=
  match x with
  | none => true
  | some v => decide (v ≤ 0)

/-- Mirrors `validate_order_input`: normalize symbol/side/type, check the
quantity, then the type-conditional price and stop_price checks; on success
return the normalized dataclass (note: `price` and `stop_price` are passed
through unchanged). -/
def validate_order_input (symbol side order_type : String) (quantity : ℚ)
    (price : Option ℚ := none) (stop_price : Option ℚ := none) :
    Except ValidationError OrderInput := do
  let norm_symbol ← normalize_symbol symbol
  let norm_side ← normalize_side side
  let norm_type ← normalize_order_type order_type
  if quantity ≤ 0 then
    throw ⟨"Quantity must be positive."⟩
  if norm_type = "LIMIT" ∨ norm_type = "STOP_LIMIT" then
    if noneOrNonpos price then
      throw ⟨"Price must be positive for LIMIT and STOP_LIMIT orders."⟩
  if norm_type = "STOP_LIMIT" then
    if noneOrNonpos stop_price then
      throw ⟨"stop_price must be positive for STOP_LIMIT orders."⟩
  return { symbol := norm_symbol, side := norm_side, order_type := norm_type,
           quantity := quantity, price := price, stop_price := stop_price }

/-! ## Byte strings and percent-encoding (`urllib.parse.urlencode` as used by
`BinanceClient._sign_params` and by the transmission of `params`) -/

/-- UTF-8 bytes of an ASCII string literal. -/
def strBytes (s : String) : List Nat :=
  s.data.map Char.toNat

/-- The bytes `urllib.parse.quote` never escapes: ASCII alphanumerics and
`_ . - ~`. -/
def isSafeByte (b : Nat) : Bool :=
  (48 ≤ b && b ≤ 57) || (65 ≤ b && b ≤ 90) || (97 ≤ b && b ≤ 122) ||
    b = 45 || b = 46 || b = 95 || b = 126

/-- Uppercase hex digit (as a byte), used by percent-escapes. -/
def hexUpper (n : Nat) : Nat :=
  if n < 10 then 48 + n else 55 + n

/-- Lowercase hex digit (as a byte), used by `hexdigest`. -/
def hexLower (n : Nat) : Nat :=
  if n < 10 then 48 + n else 87 + n

/-- `quote_plus` on one byte: space becomes `+`, safe bytes stay, every other
byte becomes a `%XX` escape. -/
def quoteByte (b : Nat) : List Nat :=
  if b = 32 then [43]
  else if isSafeByte b then [b]
  else [37, hexUpper (b / 16 % 16), hexUpper (b % 16)]

/-- `urllib.parse.quote_plus` over a byte string. -/
def quote_plus (bs : List Nat) : List Nat :=
  bs.foldr (fun b acc => quoteByte b ++ acc) []

/-- One `key=value` fragment of a query string. -/
def encodePair (kv : List Nat × List Nat) : List Nat :=
  quote_plus kv.1 ++ 61 :: quote_plus kv.2

/-- Join query fragments with `&` (byte 38). -/
def joinAmp : List (List Nat) → List Nat
  | [] => []
  | [c] => c
  | c :: cs => c ++ 38 :: joinAmp cs

/-- `urllib.parse.urlencode(params, doseq=True)` for string-valued parameters:
the canonical query string.  This single function is used below both for the
HMAC payload in `sign_params` and for the transmitted query string (the
`requests` library encodes a `params` dict with exactly this encoder). -/
def urlencode (params : List (List Nat × List Nat)) : List Nat :=
  joinAmp (params.map encodePair)

/-- Value of a hex-digit byte. -/
def hexVal (b : Nat) : Nat :=
  if 48 ≤ b && b ≤ 57 then b - 48
  else if 65 ≤ b && b ≤ 70 then b - 55
  else if 97 ≤ b && b ≤ 102 then b - 87
  else 0

/-- `urllib.parse.unquote_plus` on the well-formed escapes produced by
`quote_plus`: `+` decodes to space, `%XX` to the byte `XX`, everything else to
itself. -/
def unquote_plus : List Nat → List Nat
  | [] => []
  | 43 :: bs => 32 :: unquote_plus bs
  | 37 :: h1 :: h2 :: rest => (hexVal h1 * 16 + hexVal h2) :: unquote_plus rest
  | 37 :: bs => 37 :: unquote_plus bs
  | b :: bs => b :: unquote_plus bs

/-- Split a byte string at every occurrence of `sep`. -/
def splitSep (sep : Nat) : List Nat → List (List Nat)
  | [] => [[]]
  | b :: bs =>
    if b = sep then [] :: splitSep sep bs
    else
      match splitSep sep bs with
      | [] => [[b]]
      | c :: cs => (b :: c) :: cs

/-- Decode one `key=value` fragment. -/
def parsePair (chunk : List Nat) : List Nat × List Nat :=
  (unquote_plus (chunk.takeWhile (fun b => b ≠ 61)),
   unquote_plus ((chunk.dropWhile (fun b => b ≠ 61)).drop 1))

/-- `urllib.parse.parse_qsl`: decode a query string back into a parameter
mapping. -/
def parse_qsl (query : List Nat) : List (List Nat × List Nat) :=
  (splitSep 38 query).map parsePair

/-! ## SHA-256 and HMAC (`hashlib.sha256`, `hmac.new`) -/

/-- 2 ^ 32, the word modulus of SHA-256. -/
def w32 : Nat := 4294967296

/-- Rotate a 32-bit word right by `n` bits. -/
def rotr32 (x n : Nat) : Nat :=
  x / 2 ^ n + x % 2 ^ n * 2 ^ (32 - n)

/-- Bitwise complement on 32-bit words. -/
def not32 (x : Nat) : Nat :=
  x ^^^ (w32 - 1)

def ch32 (x y z : Nat) : Nat := (x &&& y) ^^^ (not32 x &&& z)

def maj32 (x y z : Nat) : Nat := (x &&& y) ^^^ (x &&& z) ^^^ (y &&& z)

def bsig0 (x : Nat) : Nat := rotr32 x 2 ^^^ rotr32 x 13 ^^^ rotr32 x 22

def bsig1 (x : Nat) : Nat := rotr32 x 6 ^^^ rotr32 x 11 ^^^ rotr32 x 25

def ssig0 (x : Nat) : Nat := rotr32 x 7 ^^^ rotr32 x 18 ^^^ x / 2 ^ 3

def ssig1 (x : Nat) : Nat := rotr32 x 17 ^^^ rotr32 x 19 ^^^ x / 2 ^ 10

/-- The 64 SHA-256 round constants (FIPS 180-4, in decimal). -/
def sha256K : List Nat :=
  [1116352408, 1899447441, 3049323471, 3921009573, 961987163,
   1508970993, 2453635748, 2870763221, 3624381080, 310598401,
   607225278, 1426881987, 1925078388, 2162078206, 2614888103,
   3248222580, 3835390401, 4022224774, 264347078, 604807628,
   770255983, 1249150122, 1555081692, 1996064986, 2554220882,
   2821834349, 2952996808, 3210313671, 3336571891, 3584528711,
   113926993, 338241895, 666307205, 773529912, 1294757372,
   1396182291, 1695183700, 1986661051, 2177026350, 2456956037,
   2730485921, 2820302411, 3259730800, 3345764771, 3516065817,
   3600352804, 4094571909, 275423344, 430227734, 506948616,
   659060556, 883997877, 958139571, 1322822218, 1537002063,
   1747873779, 1955562222, 2024104815, 2227730452, 2361852424,
   2428436474, 2756734187, 3204031479, 3329325298]

/-- The SHA-256 initial hash value (FIPS 180-4, in decimal). -/
def sha256H0 : List Nat :=
  [1779033703, 3144134277, 1013904242,
   2773480762, 1359893119, 2600822924,
   528734635, 1541459225]

/-- Extend 16 message words to the 64-entry message schedule. -/
def sha256Schedule (m : List Nat) : List Nat :=
  (List.range 64).foldl
    (fun ws i =>
      if i < 16 then ws ++ [m.getD i 0]
      else
        ws ++ [(ssig1 (ws.getD (i - 2) 0) + ws.getD (i - 7) 0 +
                ssig0 (ws.getD (i - 15) 0) + ws.getD (i - 16) 0) % w32])
    []

/-- One round of the SHA-256 compression function. -/
def sha256Round (st : List Nat) (kw : Nat × Nat) : List Nat :=
  match st with
  | [a, b, c, d, e, f, g, hh] =>
    let t1 := (hh + bsig1 e + ch32 e f g + kw.1 + kw.2) % w32
    let t2 := (bsig0 a + maj32 a b c) % w32
    [(t1 + t2) % w32, a, b, c, (d + t1) % w32, e, f, g]
  | other => other

/-- Compress one 16-word block into the running hash. -/
def sha256Compress (hs : List Nat) (block : List Nat) : List Nat :=
  let st := ((sha256K.zip (sha256Schedule block)).foldl
    (fun st kw => sha256Round st (kw.1, kw.2)) hs)
  List.zipWith (fun x y => (x + y) % w32) hs st

/-- Split a list into chunks of `n + 1` elements. -/
def chunksOf (n : Nat) : List Nat → List (List Nat)
  | [] => []
  | x :: xs => (x :: xs.take n) :: chunksOf n (xs.drop n)
termination_by l => l.length
decreasing_by simp [List.length_drop]; omega

/-- Big-endian bytes of a 64-bit length. -/
def be64 (n : Nat) : List Nat :=
  [n / 2 ^ 56 % 256, n / 2 ^ 48 % 256, n / 2 ^ 40 % 256, n / 2 ^ 32 % 256,
   n / 2 ^ 24 % 256, n / 2 ^ 16 % 256, n / 2 ^ 8 % 256, n % 256]

/-- Big-endian bytes of a 32-bit word. -/
def be32 (n : Nat) : List Nat :=
  [n / 2 ^ 24 % 256, n / 2 ^ 16 % 256, n / 2 ^ 8 % 256, n % 256]

/-- Assemble a 64-byte block into 16 big-endian words. -/
def blockWords (block : List Nat) : List Nat :=
  (chunksOf 3 block).map (fun bs => bs.foldl (fun acc b => acc * 256 + b) 0)

/-- SHA-256 of a byte string (returns the 32 digest bytes). -/
def sha256 (msg : List Nat) : List Nat :=
  let padded := msg ++ 128 :: (List.replicate ((119 - msg.length % 64) % 64) 0 ++
    be64 (8 * msg.length))
  let hs := (chunksOf 63 padded).foldl (fun hs b => sha256Compress hs (blockWords b)) sha256H0
  hs.foldr (fun w acc => be32 w ++ acc) []

/-- `hmac.new(key, msg, hashlib.sha256).digest()`. -/
def hmacSha256 (key msg : List Nat) : List Nat :=
  let k0 := if 64 < key.length then sha256 key else key
  let kpad := k0 ++ List.replicate (64 - k0.length) 0
  sha256 ((kpad.map (fun b => b ^^^ 92)) ++ sha256 ((kpad.map (fun b => b ^^^ 54)) ++ msg))

/-- `.hexdigest()`: lowercase hex bytes of a digest. -/
def hexdigest (digest : List Nat) : List Nat :=
  digest.foldr (fun b acc => hexLower (b / 16 % 16) :: hexLower (b % 16) :: acc) []

/-! ## Signing (`BinanceClient._sign_params`) -/

/-- The byte string `signature`. -/
def sigKey : List Nat := strBytes "signature"

/-- Python dict assignment `d[k] = v` on an insertion-ordered mapping:
replace in place when the key exists, append otherwise. -/
def dictSet (k v : List Nat) : List (List Nat × List Nat) → List (List Nat × List Nat)
  | [] => [(k, v)]
  | (k0, v0) :: rest =>
    if k0 = k then (k, v) :: rest else (k0, v0) :: dictSet k v rest

/-- The keys of a parameter mapping. -/
def keysOf (ps : List (List Nat × List Nat)) : List (List Nat) :=
  ps.map Prod.fst

/-- Mirrors `BinanceClient._sign_params`: compute the canonical query string
with `urlencode`, HMAC-SHA256 it under the secret, and store the lowercase
hex digest under `signature`. -/
def sign_params (api_secret : List Nat) (params : List (List Nat × List Nat)) :
    List (List Nat × List Nat) :=
  let query := urlencode params
  let signature := hexdigest (hmacSha256 api_secret query)
  dictSet sigKey signature params

/-! ## Request assembly (`BinanceClient._post`) and configuration
(`src/config.py`) -/

/-- Mirrors the `BinanceConfig` dataclass with its field defaults. -/
structure BinanceConfig where
  api_key : String
  api_secret : String
  base_url : String := "https://testnet.binancefuture.com"
  recv_window : Int := 5000
  deriving Repr, DecidableEq

/-- A parameter value of the wire mapping (Python values are strings, ints or
floats; floats are modelled as rationals). -/
inductive ParamVal where
  | str (s : String)
  | int (n : Int)
  | num (q : ℚ)
  deriving Repr, DecidableEq

/-- Python `dict.setdefault(k, v)`: insert `(k, v)` at the end iff the key is
absent. -/
def setdefault {ν : Type} (k : String) (v : ν) (ps : List (String × ν)) :
    List (String × ν) :=
  match List.lookup k ps with
  | some _ => ps
  | none => ps ++ [(k, v)]

/-- The parameter-defaulting step of `BinanceClient._post`, before signing:
`params.setdefault("timestamp", int(time.time() * 1000))` followed by
`params.setdefault("recvWindow", self.config.recv_window)`.  `now` is the
current epoch-millisecond clock reading, passed explicitly. -/
def postParams (now : Int) (recv_window : Int) (params : List (String × ParamVal)) :
    List (String × ParamVal) :=
  setdefault "recvWindow" (.int recv_window) (setdefault "timestamp" (.int now) params)

/-! ## Response classification (`BinanceClient._post`) -/

/-- A JSON value of the response body (the fields the client inspects are
numbers, strings or null). -/
inductive JsonVal where
  | num (n : Int)
  | str (s : String)
  | null
  deriving Repr, DecidableEq

/-- An HTTP response as seen by `_post`: status code, the parsed JSON object
(`none` models a body `resp.json()` fails to parse), and the raw text. -/
structure HttpResponse where
  status_code : Nat
  json : Option (List (String × JsonVal))
  text : String

/-- Mirrors `BinanceApiError` (the spec's `Rejected`). -/
structure BinanceApiError where
  status_code : Nat
  code : Option JsonVal
  msg : String
  deriving Repr, DecidableEq

/-- Python truthiness of the JSON values we model. -/
def pyTruthy : JsonVal → Bool
  | .num n => decide (n ≠ 0)
  | .str s => decide (s ≠ "")
  | .null => false

/-- Rendering of a JSON value for the error message (`str(...)`). -/
def renderVal : JsonVal → String
  | .num n => toString n
  | .str s => s
  | .null => "None"

/-- Rendering of the whole body for the `str(data)` fallback.  The exact
Python `repr` quoting and braces are abstracted; no claim depends on this
text. -/
def renderData (data : List (String × JsonVal)) : String :=
  String.intercalate ", " (data.map (fun kv => kv.1 ++ ": " ++ renderVal kv.2))

/-- Mirrors `str(data.get("msg") or data)`. -/
def msgOf (data : List (String × JsonVal)) : String :=
  match List.lookup "msg" data with
  | some v => if pyTruthy v then renderVal v else renderData data
  | none => renderData data

/-- Mirrors `"code" in data and data.get("code", 0) != 0`. -/
def hasErrorCode (data : List (String × JsonVal)) : Bool :=
  match List.lookup "code" data with
  | some v => decide (v ≠ JsonVal.num 0)
  | none => false

/-- The dict `_post` works on: the parsed body, or `{"raw": resp.text}` when
parsing fails. -/
def bodyData (resp : HttpResponse) : List (String × JsonVal) :=
  match resp.json with
  | some d => d
  | none => [("raw", JsonVal.str resp.text)]

/-- Outcome of `_post`: the returned body, or the raised `BinanceApiError`. -/
inductive PostOutcome where
  | ok (data : List (String × JsonVal))
  | apiError (e : BinanceApiError)
  deriving Repr, DecidableEq

/-- The response-classification step of `BinanceClient._post`: raise
`BinanceApiError(status, data.get("code"), str(data.get("msg") or data))`
when `resp.status_code >= 400 or ("code" in data and data.get("code", 0) != 0)`,
otherwise return the body. -/
def post_classify (resp : HttpResponse) : PostOutcome :=
  let data := bodyData resp
  if 400 ≤ resp.status_code ∨ hasErrorCode data then
    .apiError ⟨resp.status_code, List.lookup "code" data, msgOf data⟩
  else
    .ok data

/-! ## TWAP executor (`src/advanced/twap.py`) -/

/-- The response body of one accepted slice. -/
abbrev SliceResponse := List (String × JsonVal)

/-- Observable events of a TWAP run: the single `validate_order_input` call at
entry, each `client.place_order` call (0-based slice index), and each
`time.sleep`. -/
inductive TwapEvent where
  | validateQty (qty : ℚ)
  | placeOrder (i : Nat) (qty : ℚ)
  | sleep (seconds : Int)
  deriving Repr, DecidableEq

/-- An error escaping `run_twap_strategy`: a `ValidationError` or a
`BinanceApiError` from a slice. -/
inductive TwapError where
  | validation (e : ValidationError)
  | api (e : BinanceApiError)
  deriving Repr, DecidableEq

/-- The `for i in range(slices)` loop of `run_twap_strategy`.  `client i` is
the outcome of the HTTP exchange of slice `i` (the network oracle).  Returns
the event trace together with the returned list of responses — or, when a
slice raises, the propagated error; the `responses` accumulated so far are a
local variable of the loop and are discarded in that case, exactly as in the
source. -/
def twap_loop (client : Nat → Except BinanceApiError SliceResponse)
    (slices : Nat) (interval_seconds : Int) (qty : ℚ) :
    Nat → List SliceResponse → List TwapEvent × Except TwapError (List SliceResponse)
  | i, responses =>
    if _h : i < slices then
      match client i with
      | .error e => ([.placeOrder i qty], .error (.api e))
      | .ok resp =>
        let rest := twap_loop client slices interval_seconds qty (i + 1) (responses ++ [resp])
        if i < slices - 1 ∧ 0 < interval_seconds then
          (.placeOrder i qty :: .sleep interval_seconds :: rest.1, rest.2)
        else
          (.placeOrder i qty :: rest.1, rest.2)
    else
      ([], .ok responses)
termination_by i _ => slices - i
decreasing_by omega

/-- Mirrors `run_twap_strategy`: guard `slices`, guard `interval_seconds`,
validate the per-slice quantity once, then run the slice loop. -/
def run_twap_strategy (client : Nat → Except BinanceApiError SliceResponse)
    (symbol side : String) (total_quantity : ℚ) (slices interval_seconds : Int) :
    List TwapEvent × Except TwapError (List SliceResponse) :=
  if slices ≤ 0 then
    ([], .error (.validation ⟨"slices must be a positive integer."⟩))
  else if interval_seconds < 0 then
    ([], .error (.validation ⟨"interval must be non-negative."⟩))
  else
    let per_order_qty := total_quantity / (slices : ℚ)
    match validate_order_input symbol side "MARKET" per_order_qty none none with
    | .error e => ([.validateQty per_order_qty], .error (.validation e))
    | .ok _ =>
      let r := twap_loop client slices.toNat interval_seconds per_order_qty 0 []
      (.validateQty per_order_qty :: r.1, r.2)

/-- Number of `place_order` calls recorded in a trace. -/
def orderCalls (tr : List TwapEvent) : Nat :=
  tr.countP (fun e => match e with | .placeOrder .. => true | _ => false)

/-- Number of `time.sleep` suspensions recorded in a trace. -/
def sleepCalls (tr : List TwapEvent) : Nat :=
  tr.countP (fun e => match e with | .sleep _ => true | _ => false)

/-- Number of `validate_order_input` calls recorded in a trace. -/
def validateCalls (tr : List TwapEvent) : Nat :=
  tr.countP (fun e => match e with | .validateQty _ => true | _ => false)

/-- A concrete network oracle: slices 0 and 1 are accepted, slice 2 is
rejected by the exchange (as in the spec's slice-3-of-5 scenario). -/
def clientRejectAt3 : Nat → Except BinanceApiError SliceResponse :=
  fun i =>
    if i < 2 then .ok [("orderId", .num (100 + i)), ("status", .str "FILLED")]
    else .error ⟨400, some (.num (-2019)), "Margin is insufficient."⟩

end BinanceSpec

/-! ## Helper lemmas -/

namespace BinanceSpec

theorem lookup_append_single {ν : Type} (k k0 : String) (v : ν) (ps : List (String × ν)) :
    List.lookup k (ps ++ [(k0, v)]) =
      ((List.lookup k ps).or (if k == k0 then some v else none)) := by
  induction ps with
  | nil => cases hbeq : (k == k0) <;> simp [List.lookup, hbeq]
  | cons hd tl ih =>
    cases hd with
    | mk a b =>
      cases hbeq : (k == a) <;> simp [List.lookup, hbeq, ih]

theorem lookup_setdefault_self {ν : Type} (k : String) (v : ν) (ps : List (String × ν)) :
    List.lookup k (setdefault k v ps) = some ((List.lookup k ps).getD v) := by
  unfold setdefault
  cases h : List.lookup k ps with
  | some w => simp [h]
  | none => rw [lookup_append_single, h]; simp

theorem lookup_setdefault_other {ν : Type} (k k0 : String) (v : ν) (ps : List (String × ν))
    (hne : k ≠ k0) :
    List.lookup k (setdefault k0 v ps) = List.lookup k ps := by
  unfold setdefault
  cases h : List.lookup k0 ps with
  | some w => rfl
  | none =>
    rw [lookup_append_single]
    simp [hne]

theorem hasErrorCode_iff (data : List (String × JsonVal)) :
    hasErrorCode data = true ↔
      ∃ v, List.lookup "code" data = some v ∧ v ≠ JsonVal.num 0 := by
  unfold hasErrorCode
  cases h : List.lookup "code" data <;> simp [h]

theorem noneOrNonpos_eq_false (x : Option ℚ) :
    noneOrNonpos x = false ↔ ∃ p, x = some p ∧ 0 < p := by
  cases x <;> simp [noneOrNonpos, not_le]

theorem twap_loop_validateCalls (client : Nat → Except BinanceApiError SliceResponse)
    (slices : Nat) (interval : Int) (qty : ℚ) :
    ∀ i acc, validateCalls (twap_loop client slices interval qty i acc).1 = 0 := by
  have key : ∀ n i acc, slices - i ≤ n →
      validateCalls (twap_loop client slices interval qty i acc).1 = 0 := by
    intro n
    induction n with
    | zero =>
      intro i acc h
      rw [twap_loop]
      have hni : ¬ i < slices := by omega
      simp [hni, validateCalls]
    | succ n ih =>
      intro i acc h
      rw [twap_loop]
      by_cases hi : i < slices
      · simp only [hi, dif_pos]
        cases hc : client i with
        | error e => simp [validateCalls]
        | ok r =>
          have hrec := ih (i + 1) (acc ++ [r]) (by omega)
          by_cases hs : i < slices - 1 ∧ 0 < interval
          · simp only [hs, if_pos, validateCalls] at hrec ⊢
            simp [List.countP_cons, hrec]
          · simp only [hs, if_neg, validateCalls] at hrec ⊢
            simp [List.countP_cons, hrec]
      · simp [hi, validateCalls]
  intro i acc
  exact key (slices - i) i acc le_rfl

theorem twap_loop_abort (client : Nat → Except BinanceApiError SliceResponse)
    (slices : Nat) (interval : Int) (qty : ℚ) (k : Nat) (e : BinanceApiError)
    (hfail : client k = .error e) (hok : ∀ j, j < k → ∃ r, client j = .ok r) :
    ∀ i acc, i ≤ k → k < slices →
      (twap_loop client slices interval qty i acc).2 = .error (.api e) ∧
      orderCalls (twap_loop client slices interval qty i acc).1 = k + 1 - i ∧
      (∀ ev ∈ (twap_loop client slices interval qty i acc).1,
        ∀ j q, ev = .placeOrder j q → j ≤ k) := by
  have key : ∀ n i acc, k - i ≤ n → i ≤ k → k < slices →
      (twap_loop client slices interval qty i acc).2 = .error (.api e) ∧
      orderCalls (twap_loop client slices interval qty i acc).1 = k + 1 - i ∧
      (∀ ev ∈ (twap_loop client slices interval qty i acc).1,
        ∀ j q, ev = .placeOrder j q → j ≤ k) := by
    intro n
    induction n with
    | zero =>
      intro i acc hn hik hks
      have hik0 : i = k := by omega
      subst hik0
      rw [twap_loop]
      have hi : i < slices := hks
      simp only [hi, dif_pos, hfail]
      refine ⟨by simp, by simp [orderCalls], ?_⟩
      intro ev hev j q hevq
      simp only [List.mem_singleton] at hev
      subst hev
      injection hevq with h1 h2
      omega
    | succ n ih =>
      intro i acc hn hik hks
      rcases Nat.eq_or_lt_of_le hik with hik0 | hik1
      · subst hik0
        rw [twap_loop]
        have hi : i < slices := hks
        simp only [hi, dif_pos, hfail]
        refine ⟨by simp, by simp [orderCalls], ?_⟩
        intro ev hev j q hevq
        simp only [List.mem_singleton] at hev
        subst hev
        injection hevq with h1 h2
        omega
      · obtain ⟨r, hr⟩ := hok i hik1
        rw [twap_loop]
        have hi : i < slices := by omega
        simp only [hi, dif_pos, hr]
        have hrec := ih (i + 1) (acc ++ [r]) (by omega) (by omega) hks
        have hcount := hrec.2.1
        by_cases hs : i < slices - 1 ∧ 0 < interval
        · rw [if_pos hs]
          refine ⟨by simpa using hrec.1, ?_, ?_⟩
          · simp [orderCalls, List.countP_cons] at hcount ⊢
            all_goals omega
          · intro ev hev j q hevq
            simp only [List.mem_cons] at hev
            rcases hev with hev | hev | hev
            · subst hev
              injection hevq with h1 h2
              omega
            · subst hev
              exact absurd hevq (by simp)
            · exact hrec.2.2 ev hev j q hevq
        · rw [if_neg hs]
          refine ⟨by simpa using hrec.1, ?_, ?_⟩
          · simp [orderCalls, List.countP_cons] at hcount ⊢
            all_goals omega
          · intro ev hev j q hevq
            simp only [List.mem_cons] at hev
            rcases hev with hev | hev
            · subst hev
              injection hevq with h1 h2
              omega
            · exact hrec.2.2 ev hev j q hevq
  intro i acc hik hks
  exact key (k - i) i acc le_rfl hik hks

theorem validate_market_ok (symbol side s sd : String) (q : ℚ)
    (hsym : normalize_symbol symbol = .ok s) (hside : normalize_side side = .ok sd)
    (hq : 0 < q) :
    validate_order_input symbol side "MARKET" q none none =
      .ok ⟨s, sd, "MARKET", q, none, none⟩ := by
  unfold validate_order_input
  rw [hsym, hside]
  have ht : normalize_order_type "MARKET" = .ok "MARKET" := by decide
  rw [ht]
  simp [Bind.bind, Except.bind, not_le.mpr hq, pure, Except.pure]

theorem quote_plus_cons (b : Nat) (bs : List Nat) :
    quote_plus (b :: bs) = quoteByte b ++ quote_plus bs := rfl

theorem quote_plus_nil : quote_plus [] = [] := rfl

theorem hexVal_hexUpper (n : Nat) (h : n < 16) : hexVal (hexUpper n) = n := by
  revert h
  revert n
  decide

theorem hexUpper_not_special (n : Nat) (h : n < 16) :
    hexUpper n ≠ 38 ∧ hexUpper n ≠ 61 ∧ hexUpper n ≠ 43 ∧ hexUpper n ≠ 37 := by
  revert h
  revert n
  decide

theorem safe_not_special (b : Nat) (h : isSafeByte b = true) :
    b ≠ 38 ∧ b ≠ 61 ∧ b ≠ 43 ∧ b ≠ 37 := by
  refine ⟨?_, ?_, ?_, ?_⟩ <;> (intro heq; subst heq; simp [isSafeByte] at h)

theorem sep_not_mem_quoteByte (b : Nat) : 38 ∉ quoteByte b ∧ 61 ∉ quoteByte b := by
  unfold quoteByte
  by_cases h32 : b = 32
  · simp [h32]
  · by_cases hsafe : isSafeByte b
    · have := safe_not_special b hsafe
      simp [h32, hsafe]
      omega
    · have h1 := hexUpper_not_special (b / 16 % 16) (by omega)
      have h2 := hexUpper_not_special (b % 16) (by omega)
      simp [h32, hsafe]
      omega

theorem sep_not_mem_quote_plus (bs : List Nat) :
    38 ∉ quote_plus bs ∧ 61 ∉ quote_plus bs := by
  induction bs with
  | nil => simp [quote_plus_nil]
  | cons b tl ih =>
    have hb := sep_not_mem_quoteByte b
    rw [quote_plus_cons]
    simp only [List.mem_append]
    constructor
    · intro hmem
      rcases hmem with hmem | hmem
      · exact hb.1 hmem
      · exact ih.1 hmem
    · intro hmem
      rcases hmem with hmem | hmem
      · exact hb.2 hmem
      · exact ih.2 hmem

theorem unquote_cons_plus (l : List Nat) : unquote_plus (43 :: l) = 32 :: unquote_plus l := rfl

theorem unquote_cons_percent (a c : Nat) (l : List Nat) :
    unquote_plus (37 :: a :: c :: l) = (hexVal a * 16 + hexVal c) :: unquote_plus l := rfl

theorem unquote_cons_other (b : Nat) (l : List Nat) (h1 : b ≠ 43) (h2 : b ≠ 37) :
    unquote_plus (b :: l) = b :: unquote_plus l := by
  rw [unquote_plus.eq_def]
  split <;> simp_all

theorem unquote_quote (bs : List Nat) (h : ∀ b ∈ bs, b < 256) :
    unquote_plus (quote_plus bs) = bs := by
  induction bs with
  | nil => rfl
  | cons b tl ih =>
    have hb : b < 256 := h b (by simp)
    have htl : ∀ x ∈ tl, x < 256 := fun x hx => h x (by simp [hx])
    rw [quote_plus_cons]
    by_cases h32 : b = 32
    · subst h32
      have hq : quoteByte 32 = [43] := rfl
      rw [hq, List.singleton_append, unquote_cons_plus, ih htl]
    · by_cases hsafe : isSafeByte b
      · have hs := safe_not_special b hsafe
        have hq : quoteByte b = [b] := by
          unfold quoteByte
          rw [if_neg h32, if_pos hsafe]
        rw [hq, List.singleton_append, unquote_cons_other b _ hs.2.2.1 hs.2.2.2, ih htl]
      · have hq : quoteByte b = [37, hexUpper (b / 16 % 16), hexUpper (b % 16)] := by
          unfold quoteByte
          rw [if_neg h32, if_neg hsafe]
        rw [hq, List.cons_append, List.cons_append, List.cons_append, List.nil_append,
          unquote_cons_percent, hexVal_hexUpper _ (by omega), hexVal_hexUpper _ (by omega),
          ih htl]
        congr 1
        omega

theorem splitSep_cons_ne (sep b : Nat) (bs : List Nat) (hb : b ≠ sep) :
    splitSep sep (b :: bs) =
      match splitSep sep bs with
      | [] => [[b]]
      | c :: cs => (b :: c) :: cs := by
  conv_lhs => rw [splitSep]
  rw [if_neg hb]

theorem splitSep_no_sep (sep : Nat) (c : List Nat) (h : sep ∉ c) :
    splitSep sep c = [c] := by
  induction c with
  | nil => rfl
  | cons b bs ih =>
    have hb : b ≠ sep := by
      intro heq
      exact h (by simp [heq])
    have hbs : sep ∉ bs := fun hmem => h (by simp [hmem])
    rw [splitSep_cons_ne sep b bs hb, ih hbs]

theorem splitSep_append_sep (sep : Nat) (c rest : List Nat) (h : sep ∉ c) :
    splitSep sep (c ++ sep :: rest) = c :: splitSep sep rest := by
  induction c with
  | nil => simp [splitSep]
  | cons b bs ih =>
    have hb : b ≠ sep := by
      intro heq
      exact h (by simp [heq])
    have hbs : sep ∉ bs := fun hmem => h (by simp [hmem])
    rw [List.cons_append, splitSep_cons_ne sep b _ hb, ih hbs]

theorem splitSep_joinAmp (chunks : List (List Nat)) (hne : chunks ≠ [])
    (h : ∀ c ∈ chunks, 38 ∉ c) :
    splitSep 38 (joinAmp chunks) = chunks := by
  induction chunks with
  | nil => exact absurd rfl hne
  | cons c cs ih =>
    cases cs with
    | nil =>
      have hc : 38 ∉ c := h c (by simp)
      unfold joinAmp
      exact splitSep_no_sep 38 c hc
    | cons c2 cs2 =>
      have hc : 38 ∉ c := h c (by simp)
      have hrest : ∀ x ∈ c2 :: cs2, 38 ∉ x := fun x hx => h x (by simp [hx])
      have hj : joinAmp (c :: c2 :: cs2) = c ++ 38 :: joinAmp (c2 :: cs2) := rfl
      rw [hj, splitSep_append_sep 38 c _ hc, ih (by simp) hrest]

theorem takeWhile_append_stop (p : Nat → Bool) (l1 l2 : List Nat)
    (h : ∀ x ∈ l1, p x = true) (h61 : p 61 = false) :
    (l1 ++ 61 :: l2).takeWhile p = l1 ∧ (l1 ++ 61 :: l2).dropWhile p = 61 :: l2 := by
  induction l1 with
  | nil =>
    constructor
    · rw [List.nil_append, List.takeWhile_cons, h61]
      simp
    · rw [List.nil_append, List.dropWhile_cons, h61]
      simp
  | cons b bs ih =>
    have hb : p b = true := h b (by simp)
    have hbs := ih (fun x hx => h x (by simp [hx]))
    rw [List.cons_append]
    constructor
    · rw [List.takeWhile_cons, hb]
      simp [hbs.1]
    · rw [List.dropWhile_cons, hb]
      simp [hbs.2]

theorem parsePair_encodePair (kv : List Nat × List Nat)
    (hk : ∀ b ∈ kv.1, b < 256) (hv : ∀ b ∈ kv.2, b < 256) :
    parsePair (encodePair kv) = kv := by
  obtain ⟨k, v⟩ := kv
  unfold parsePair encodePair
  have hsep := sep_not_mem_quote_plus k
  have hall : ∀ x ∈ quote_plus k, (fun b => decide (b ≠ 61)) x = true := by
    intro x hx
    simp only [decide_eq_true_eq]
    intro heq
    subst heq
    exact hsep.2 hx
  have htw := takeWhile_append_stop (fun b => decide (b ≠ 61))
    (quote_plus k) (quote_plus v) hall (by decide)
  simp only at htw ⊢
  rw [htw.1, htw.2]
  simp [unquote_quote k hk, unquote_quote v hv]

theorem sep_not_mem_encodePair (kv : List Nat × List Nat) : 38 ∉ encodePair kv := by
  unfold encodePair
  simp only [List.mem_append, List.mem_cons]
  intro hmem
  rcases hmem with hmem | hmem | hmem
  · exact (sep_not_mem_quote_plus kv.1).1 hmem
  · omega
  · exact (sep_not_mem_quote_plus kv.2).1 hmem

theorem parse_qsl_urlencode (params : List (List Nat × List Nat)) (hne : params ≠ [])
    (hbytes : ∀ kv ∈ params, (∀ b ∈ kv.1, b < 256) ∧ (∀ b ∈ kv.2, b < 256)) :
    parse_qsl (urlencode params) = params := by
  unfold parse_qsl urlencode
  rw [splitSep_joinAmp (params.map encodePair) (by simpa using hne)
    (by
      intro c hc
      simp only [List.mem_map] at hc
      obtain ⟨kv, _, hkv⟩ := hc
      subst hkv
      exact sep_not_mem_encodePair kv)]
  rw [List.map_map]
  conv_rhs => rw [← List.map_id params]
  apply List.map_congr_left
  intro kv hkv
  exact parsePair_encodePair kv (hbytes kv hkv).1 (hbytes kv hkv).2

theorem quote_plus_safe (bs : List Nat) (h : ∀ b ∈ bs, isSafeByte b = true) :
    quote_plus bs = bs := by
  induction bs with
  | nil => rfl
  | cons b tl ih =>
    have hb : isSafeByte b = true := h b (by simp)
    have hb32 : b ≠ 32 := by
      intro heq
      subst heq
      simp [isSafeByte] at hb
    rw [quote_plus_cons]
    have hq : quoteByte b = [b] := by
      unfold quoteByte
      rw [if_neg hb32, if_pos hb]
    rw [hq, List.singleton_append, ih (fun x hx => h x (by simp [hx]))]

theorem hexLower_safe (n : Nat) (h : n < 16) :
    isSafeByte (hexLower n) = true ∧ hexLower n < 256 := by
  revert h
  revert n
  decide

theorem hexdigest_safe (ds : List Nat) :
    (∀ b ∈ hexdigest ds, isSafeByte b = true) ∧ (∀ b ∈ hexdigest ds, b < 256) := by
  induction ds with
  | nil => simp [hexdigest]
  | cons d tl ih =>
    have h1 := hexLower_safe (d / 16 % 16) (by omega)
    have h2 := hexLower_safe (d % 16) (by omega)
    have hd : hexdigest (d :: tl) =
        hexLower (d / 16 % 16) :: hexLower (d % 16) :: hexdigest tl := rfl
    rw [hd]
    constructor
    · intro b hb
      simp only [List.mem_cons] at hb
      rcases hb with hb | hb | hb
      · subst hb; exact h1.1
      · subst hb; exact h2.1
      · exact ih.1 b hb
    · intro b hb
      simp only [List.mem_cons] at hb
      rcases hb with hb | hb | hb
      · subst hb; exact h1.2
      · subst hb; exact h2.2
      · exact ih.2 b hb

theorem sigKey_props :
    (∀ b ∈ sigKey, isSafeByte b = true) ∧ (∀ b ∈ sigKey, b < 256) := by
  decide

theorem dictSet_fresh (k v : List Nat) (ps : List (List Nat × List Nat))
    (h : k ∉ keysOf ps) :
    dictSet k v ps = ps ++ [(k, v)] := by
  induction ps with
  | nil => rfl
  | cons hd tl ih =>
    have hne : hd.1 ≠ k := by
      intro heq
      exact h (by simp [keysOf, heq])
    have htl : k ∉ keysOf tl := by
      intro hmem
      exact h (by simp [keysOf] at hmem ⊢; right; exact hmem)
    obtain ⟨k0, v0⟩ := hd
    unfold dictSet
    rw [if_neg hne, ih htl]
    simp

theorem joinAmp_append_single (cs : List (List Nat)) (c : List Nat) (hne : cs ≠ []) :
    joinAmp (cs ++ [c]) = joinAmp cs ++ 38 :: c := by
  induction cs with
  | nil => exact absurd rfl hne
  | cons c0 cs0 ih =>
    cases cs0 with
    | nil => rfl
    | cons c1 cs1 =>
      have h1 : joinAmp ((c0 :: c1 :: cs1) ++ [c]) =
          c0 ++ 38 :: joinAmp ((c1 :: cs1) ++ [c]) := rfl
      have h2 : joinAmp (c0 :: c1 :: cs1) = c0 ++ 38 :: joinAmp (c1 :: cs1) := rfl
      rw [h1, h2, ih (by simp)]
      simp

end BinanceSpec

/-! ## Claim theorems -/

namespace BinanceSpec

/-- C1 (counterexample): with the exchange rejecting slice 3 of a 5-slice run,
`run_twap_strategy` returns only the propagated error: no sequence of
responses (of length 3 or any other) reaches the caller, and exactly 3
placement calls were made.  This refutes the claim that the error is returned
together with the accumulated partial results. -/
theorem twap_partial_results_counterexample :
    (run_twap_strategy clientRejectAt3 "BTCUSDT" "BUY" 1 5 0).2 =
      .error (.api ⟨400, some (.num (-2019)), "Margin is insufficient."⟩) ∧
    (∀ rs : List SliceResponse,
      (run_twap_strategy clientRejectAt3 "BTCUSDT" "BUY" 1 5 0).2 ≠ .ok rs) ∧
    orderCalls (run_twap_strategy clientRejectAt3 "BTCUSDT" "BUY" 1 5 0).1 = 3 := by
  have hv := validate_market_ok "BTCUSDT" "BUY" "BTCUSDT" "BUY" ((1 : ℚ) / ((5 : Int) : ℚ))
    (by decide) (by decide) (by norm_num)
  have hrun : run_twap_strategy clientRejectAt3 "BTCUSDT" "BUY" 1 5 0 =
      ([.validateQty (1 / 5), .placeOrder 0 (1 / 5), .placeOrder 1 (1 / 5),
        .placeOrder 2 (1 / 5)],
       .error (.api ⟨400, some (.num (-2019)), "Margin is insufficient."⟩)) := by
    unfold run_twap_strategy
    rw [if_neg (by omega), if_neg (by omega)]
    simp only [hv]
    simp [twap_loop, clientRejectAt3]
  rw [hrun]
  refine ⟨rfl, ?_, by simp [orderCalls, List.countP_cons]⟩
  intro rs
  simp

/-- C1 (amended): when the client fails on 0-based slice `k` of a run with
`slices` slices, `run_twap_strategy` issues exactly `k + 1` placement calls
(aborting before any later slice), and propagates the error to the caller;
the responses accumulated for the earlier slices are a local variable of the
loop and are discarded, so the caller receives the error alone. -/
theorem twap_abort_discards_partial_results (client : Nat → Except BinanceApiError SliceResponse)
    (symbol side s sd : String) (total_quantity : ℚ) (slices interval_seconds : Int)
    (k : Nat) (e : BinanceApiError)
    (hsym : normalize_symbol symbol = .ok s) (hside : normalize_side side = .ok sd)
    (h1 : 0 < slices) (h2 : 0 ≤ interval_seconds)
    (hqty : 0 < total_quantity / (slices : ℚ))
    (hk : k < slices.toNat)
    (hfail : client k = .error e) (hok : ∀ j, j < k → ∃ r, client j = .ok r) :
    (run_twap_strategy client symbol side total_quantity slices interval_seconds).2 =
      .error (.api e) ∧
    orderCalls (run_twap_strategy client symbol side total_quantity slices interval_seconds).1 =
      k + 1 ∧
    (∀ ev ∈ (run_twap_strategy client symbol side total_quantity slices interval_seconds).1,
      ∀ j q, ev = .placeOrder j q → j ≤ k) := by
  have habort := twap_loop_abort client slices.toNat interval_seconds
    (total_quantity / (slices : ℚ)) k e hfail hok 0 [] (Nat.zero_le k) hk
  unfold run_twap_strategy
  rw [if_neg (by omega), if_neg (by omega)]
  simp only [validate_market_ok symbol side s sd _ hsym hside hqty]
  refine ⟨by simpa using habort.1, ?_, ?_⟩
  · have := habort.2.1
    simp only [orderCalls, List.countP_cons] at this ⊢
    simp [this]
  · intro ev hev j q hevq
    simp only [List.mem_cons] at hev
    rcases hev with hev | hev
    · subst hev
      exact absurd hevq (by simp)
    · exact habort.2.2 ev hev j q hevq

/-- C2: the canonical query string over which the HMAC-SHA256 signature is
computed is produced by the same `urlencode` used for transmission; the
transmitted query string is that canonical string followed by the appended
`signature` parameter (a byte-identical prefix), and decoding the transmitted
query string recovers the original parameter mapping (plus the signature
pair). -/
theorem signing_equals_transmission_roundtrip (api_secret : List Nat) (params : List (List Nat × List Nat))
    (hne : params ≠ [])
    (hbytes : ∀ kv ∈ params, (∀ b ∈ kv.1, b < 256) ∧ (∀ b ∈ kv.2, b < 256))
    (hnosig : sigKey ∉ keysOf params) :
    parse_qsl (urlencode params) = params ∧
    urlencode (sign_params api_secret params) =
      urlencode params ++ 38 :: (sigKey ++ 61 ::
        hexdigest (hmacSha256 api_secret (urlencode params))) ∧
    parse_qsl (urlencode (sign_params api_secret params)) =
      params ++ [(sigKey, hexdigest (hmacSha256 api_secret (urlencode params)))] := by
  have hsign : sign_params api_secret params =
      params ++ [(sigKey, hexdigest (hmacSha256 api_secret (urlencode params)))] := by
    unfold sign_params
    exact dictSet_fresh _ _ _ hnosig
  have hb2 : ∀ kv ∈ params ++ [(sigKey, hexdigest (hmacSha256 api_secret (urlencode params)))],
      (∀ b ∈ kv.1, b < 256) ∧ (∀ b ∈ kv.2, b < 256) := by
    intro kv hkv
    rcases List.mem_append.mp hkv with hkv | hkv
    · exact hbytes kv hkv
    · simp only [List.mem_singleton] at hkv
      subst hkv
      exact ⟨sigKey_props.2, (hexdigest_safe _).2⟩
  have hulm : urlencode (params ++ [(sigKey, hexdigest (hmacSha256 api_secret (urlencode params)))]) =
      urlencode params ++ 38 ::
        encodePair (sigKey, hexdigest (hmacSha256 api_secret (urlencode params))) := by
    conv_lhs => rw [urlencode, List.map_append, List.map_cons, List.map_nil]
    rw [joinAmp_append_single _ _ (by simpa using hne)]
    rfl
  refine ⟨parse_qsl_urlencode params hne hbytes, ?_, ?_⟩
  · rw [hsign, hulm]
    have hep : encodePair (sigKey, hexdigest (hmacSha256 api_secret (urlencode params))) =
        sigKey ++ 61 :: hexdigest (hmacSha256 api_secret (urlencode params)) := by
      unfold encodePair
      rw [quote_plus_safe sigKey sigKey_props.1,
        quote_plus_safe _ (hexdigest_safe (hmacSha256 api_secret (urlencode params))).1]
    rw [hep]
  · rw [hsign]
    exact parse_qsl_urlencode _ (by simp) hb2

/-- C3 (counterexample): the validator accepts a MARKET order together with a
caller-supplied `price` and returns it in the validated result, refuting the
claim that `price` is present only for LIMIT and STOP_LIMIT. -/
theorem validator_market_passthrough_counterexample :
    validate_order_input "BTCUSDT" "BUY" "MARKET" 1 (some 5) none =
      .ok { symbol := "BTCUSDT", side := "BUY", order_type := "MARKET",
            quantity := 1, price := some 5, stop_price := none } ∧
    ((validate_order_input "BTCUSDT" "BUY" "MARKET" 1 (some 5) none).toOption.map
      OrderInput.price) = some (some 5) := by
  decide

/-- C3 (amended): in every accepted result, the fields REQUIRED by the order
type are present and positive (`price` for LIMIT and STOP_LIMIT, `stop_price`
for STOP_LIMIT), the quantity is positive, and `price`/`stop_price` are passed
through from the caller unchanged - so a field can also be present when the
order type does not require it, exactly when the caller supplied it. -/
theorem validator_fields_by_order_type (symbol side order_type : String) (quantity : ℚ)
    (price stop_price : Option ℚ) (g : OrderInput)
    (h : validate_order_input symbol side order_type quantity price stop_price = .ok g) :
    (g.order_type = "LIMIT" ∨ g.order_type = "STOP_LIMIT" →
      ∃ p, price = some p ∧ 0 < p) ∧
    (g.order_type = "STOP_LIMIT" → ∃ sp, stop_price = some sp ∧ 0 < sp) ∧
    g.price = price ∧ g.stop_price = stop_price ∧ 0 < g.quantity := by
  unfold validate_order_input at h
  cases hsym : normalize_symbol symbol with
  | error e => rw [hsym] at h; simp [Bind.bind, Except.bind] at h
  | ok s =>
  cases hside : normalize_side side with
  | error e => rw [hsym, hside] at h; simp [Bind.bind, Except.bind] at h
  | ok sd =>
  cases htype : normalize_order_type order_type with
  | error e => rw [hsym, hside, htype] at h; simp [Bind.bind, Except.bind] at h
  | ok t =>
  rw [hsym, hside, htype] at h
  simp only [Bind.bind, Except.bind] at h
  by_cases hq : quantity ≤ 0
  · simp [hq, throw, throwThe, MonadExceptOf.throw] at h
  by_cases ht : t = "LIMIT" ∨ t = "STOP_LIMIT"
  · by_cases hp : noneOrNonpos price
    · simp [hq, ht, hp, throw, throwThe, MonadExceptOf.throw, pure, Except.pure] at h
    · by_cases hst : t = "STOP_LIMIT"
      · by_cases hsp : noneOrNonpos stop_price
        · simp [hq, ht, hp, hst, hsp, throw, throwThe, MonadExceptOf.throw, pure, Except.pure] at h
        · simp [hq, ht, hp, hst, hsp, throw, throwThe, MonadExceptOf.throw, pure, Except.pure] at h
          subst h
          refine ⟨fun _ => ?_, fun _ => ?_, rfl, rfl, by linarith⟩
          · exact (noneOrNonpos_eq_false price).mp (by simpa using hp)
          · exact (noneOrNonpos_eq_false stop_price).mp (by simpa using hsp)
      · simp [hq, ht, hp, hst, throw, throwThe, MonadExceptOf.throw, pure, Except.pure] at h
        subst h
        exact ⟨fun _ => (noneOrNonpos_eq_false price).mp (by simpa using hp),
          fun hcon => absurd hcon hst, rfl, rfl, by linarith⟩
  · have htl : t ≠ "LIMIT" := fun hh => ht (Or.inl hh)
    have hst : t ≠ "STOP_LIMIT" := fun hh => ht (Or.inr hh)
    simp [hq, ht, htl, hst, throw, throwThe, MonadExceptOf.throw, pure, Except.pure] at h
    subst h
    exact ⟨fun hcon => absurd hcon ht, fun hcon => absurd hcon hst, rfl, rfl, by linarith⟩

/-- C4: `_post` raises `BinanceApiError` (carrying the HTTP status, the
body code and the message) exactly when the HTTP status is at least 400 or
the parsed body contains a `code` key whose value is present and non-zero;
otherwise it returns the body - every call yields exactly one of the two. -/
theorem post_classify_rejected_iff (resp : HttpResponse) :
    ((∃ e : BinanceApiError, post_classify resp = .apiError e ∧
        e.status_code = resp.status_code ∧
        e.code = List.lookup "code" (bodyData resp) ∧
        e.msg = msgOf (bodyData resp)) ↔
      (400 ≤ resp.status_code ∨
        ∃ v, List.lookup "code" (bodyData resp) = some v ∧ v ≠ JsonVal.num 0)) ∧
    (post_classify resp = .ok (bodyData resp) ↔
      ¬(400 ≤ resp.status_code ∨
        ∃ v, List.lookup "code" (bodyData resp) = some v ∧ v ≠ JsonVal.num 0)) := by
  unfold post_classify
  rw [← hasErrorCode_iff]
  by_cases hcond : 400 ≤ resp.status_code ∨ hasErrorCode (bodyData resp) = true
  · simp only [hcond, if_pos, iff_true]
    constructor
    · exact ⟨⟨resp.status_code, List.lookup "code" (bodyData resp), msgOf (bodyData resp)⟩,
        by simp [hcond], rfl, rfl, rfl⟩
    · simp [hcond]
  · simp only [hcond, if_neg, iff_false, iff_true]
    constructor
    · simp [hcond]
    · simp [hcond]

/-- C5: a 5-slice TWAP run over total quantity 0.01 with an accepting client
requests quantity 0.002 = 0.01 / 5 on every slice, makes exactly 5 placement
calls, and with interval 10 sleeps exactly 4 times, only between consecutive
slices (never after the last); with interval 0 it never sleeps. -/
theorem twap_five_slice_schedule (client : Nat → Except BinanceApiError SliceResponse)
    (resps : Nat → SliceResponse) (symbol side s sd : String)
    (hsym : normalize_symbol symbol = .ok s) (hside : normalize_side side = .ok sd)
    (hclient : ∀ i, client i = .ok (resps i)) :
    run_twap_strategy client symbol side 0.01 5 10 =
      ([.validateQty 0.002, .placeOrder 0 0.002, .sleep 10, .placeOrder 1 0.002, .sleep 10,
        .placeOrder 2 0.002, .sleep 10, .placeOrder 3 0.002, .sleep 10, .placeOrder 4 0.002],
       .ok [resps 0, resps 1, resps 2, resps 3, resps 4]) ∧
    run_twap_strategy client symbol side 0.01 5 0 =
      ([.validateQty 0.002, .placeOrder 0 0.002, .placeOrder 1 0.002,
        .placeOrder 2 0.002, .placeOrder 3 0.002, .placeOrder 4 0.002],
       .ok [resps 0, resps 1, resps 2, resps 3, resps 4]) := by
  have hq : (0.01 : ℚ) / (((5 : Int)) : ℚ) = 0.002 := by norm_num
  have hv : validate_order_input symbol side "MARKET" ((0.01 : ℚ) / (((5 : Int)) : ℚ)) none none =
      .ok ⟨s, sd, "MARKET", (0.01 : ℚ) / (((5 : Int)) : ℚ), none, none⟩ := by
    unfold validate_order_input
    rw [hsym, hside]
    have ht : normalize_order_type "MARKET" = .ok "MARKET" := by decide
    rw [ht]
    have hqpos : ¬ ((0.01 : ℚ) / (((5 : Int)) : ℚ) ≤ 0) := by norm_num
    simp [Bind.bind, Except.bind, hqpos, pure, Except.pure]
    norm_num
  constructor
  · unfold run_twap_strategy
    rw [if_neg (by omega), if_neg (by omega)]
    simp only [hv]
    simp [twap_loop, hclient, hq]
    norm_num
  · unfold run_twap_strategy
    rw [if_neg (by omega), if_neg (by omega)]
    simp only [hv]
    simp [twap_loop, hclient, hq]
    norm_num

/-- C6: with otherwise-valid inputs, a LIMIT or STOP_LIMIT order whose price
is absent or non-positive fails with the `ValidationError` naming the price,
and a STOP_LIMIT order with a valid price but absent or non-positive
stop_price fails with the `ValidationError` naming stop_price; the validator
is a pure function, so no network call can occur. -/
theorem validator_missing_price_errors (symbol side order_type s sd t : String) (quantity : ℚ)
    (price stop_price : Option ℚ)
    (hsym : normalize_symbol symbol = .ok s) (hside : normalize_side side = .ok sd)
    (htype : normalize_order_type order_type = .ok t) (hq : 0 < quantity) :
    (t = "LIMIT" ∨ t = "STOP_LIMIT" → noneOrNonpos price = true →
      validate_order_input symbol side order_type quantity price stop_price =
        .error ⟨"Price must be positive for LIMIT and STOP_LIMIT orders."⟩) ∧
    (t = "STOP_LIMIT" → noneOrNonpos price = false → noneOrNonpos stop_price = true →
      validate_order_input symbol side order_type quantity price stop_price =
        .error ⟨"stop_price must be positive for STOP_LIMIT orders."⟩) := by
  unfold validate_order_input
  rw [hsym, hside, htype]
  constructor
  · intro ht hp
    simp [Bind.bind, Except.bind, not_le.mpr hq, ht, hp, throw, throwThe,
      MonadExceptOf.throw, pure, Except.pure]
  · intro ht hp hsp
    simp [Bind.bind, Except.bind, not_le.mpr hq, ht, hp, hsp, throw, throwThe,
      MonadExceptOf.throw, pure, Except.pure]

/-- C7: `run_twap_strategy` rejects `slices <= 0` and `interval < 0` with the
respective `ValidationError` before any event is recorded (in particular zero
placement calls), and otherwise validates the per-slice quantity
`total_quantity / slices` exactly once, as the first event, before the first
slice. -/
theorem twap_guards_and_single_validation (client : Nat → Except BinanceApiError SliceResponse)
    (symbol side : String) (total_quantity : ℚ) (slices interval_seconds : Int) :
    (slices ≤ 0 →
      run_twap_strategy client symbol side total_quantity slices interval_seconds =
        ([], .error (.validation ⟨"slices must be a positive integer."⟩))) ∧
    (0 < slices → interval_seconds < 0 →
      run_twap_strategy client symbol side total_quantity slices interval_seconds =
        ([], .error (.validation ⟨"interval must be non-negative."⟩))) ∧
    (0 < slices → 0 ≤ interval_seconds →
      validateCalls (run_twap_strategy client symbol side total_quantity slices interval_seconds).1 = 1 ∧
      (run_twap_strategy client symbol side total_quantity slices interval_seconds).1.head? =
        some (.validateQty (total_quantity / (slices : ℚ)))) := by
  refine ⟨?_, ?_, ?_⟩
  · intro h
    unfold run_twap_strategy
    rw [if_pos h]
  · intro h1 h2
    unfold run_twap_strategy
    rw [if_neg (by omega), if_pos h2]
  · intro h1 h2
    unfold run_twap_strategy
    rw [if_neg (by omega), if_neg (by omega)]
    cases hv : validate_order_input symbol side "MARKET" (total_quantity / (slices : ℚ)) none none with
    | error e => simp [hv, validateCalls]
    | ok g =>
      have hloop := twap_loop_validateCalls client slices.toNat interval_seconds
        (total_quantity / (slices : ℚ)) 0 []
      simp only [validateCalls] at hloop
      simp [hv, validateCalls, List.countP_cons, hloop]

/-- C8: `_sign_params` appends the `signature` key as the final parameter of
the mapping, leaves every existing key/value pair unchanged, and the HMAC is
computed over `urlencode` of the original mapping, which does not contain the
signature parameter. -/
theorem sign_params_appends_signature (api_secret : List Nat) (params : List (List Nat × List Nat))
    (hnosig : sigKey ∉ keysOf params) :
    sign_params api_secret params =
      params ++ [(sigKey, hexdigest (hmacSha256 api_secret (urlencode params)))] ∧
    (sign_params api_secret params).getLast? =
      some (sigKey, hexdigest (hmacSha256 api_secret (urlencode params))) ∧
    (∀ kv ∈ params, kv ∈ sign_params api_secret params) := by
  have hmain : sign_params api_secret params =
      params ++ [(sigKey, hexdigest (hmacSha256 api_secret (urlencode params)))] := by
    unfold sign_params
    exact dictSet_fresh _ _ _ hnosig
  refine ⟨hmain, ?_, ?_⟩
  · rw [hmain]
    simp
  · intro kv hkv
    rw [hmain]
    exact List.mem_append_left _ hkv

/-- C9: before signing, `_post` inserts `timestamp` with the current epoch
milliseconds and `recvWindow` with the configured value only when the keys
are absent, never overwriting caller-supplied values, and leaves every other
key unchanged; the `BinanceConfig` default for `recv_window` is 5000. -/
theorem post_defaults_timestamp_recvWindow (now recv_window : Int) (params : List (String × ParamVal)) :
    List.lookup "timestamp" (postParams now recv_window params) =
      some ((List.lookup "timestamp" params).getD (.int now)) ∧
    List.lookup "recvWindow" (postParams now recv_window params) =
      some ((List.lookup "recvWindow" params).getD (.int recv_window)) ∧
    (∀ k : String, k ≠ "timestamp" → k ≠ "recvWindow" →
      List.lookup k (postParams now recv_window params) = List.lookup k params) ∧
    (∀ a b : String, ({ api_key := a, api_secret := b } : BinanceConfig).recv_window = 5000) := by
  refine ⟨?_, ?_, ?_, fun a b => rfl⟩
  · unfold postParams
    rw [lookup_setdefault_other _ _ _ _ (by decide), lookup_setdefault_self]
  · unfold postParams
    rw [lookup_setdefault_self, lookup_setdefault_other _ _ _ _ (by decide)]
  · intro k hk1 hk2
    unfold postParams
    rw [lookup_setdefault_other _ _ _ _ hk2, lookup_setdefault_other _ _ _ _ hk1]

/-- C10: a response whose status is below 400 and whose body fails to parse
as JSON is classified as accepted, returning the raw text under the key
`raw` - no error is raised for an unparseable or code-free body unless the
status itself is at least 400. -/
theorem post_unparseable_body_accepted (status : Nat) (hstatus : status < 400) (text : String) :
    post_classify ⟨status, none, text⟩ = .ok [("raw", JsonVal.str text)] := by
  unfold post_classify bodyData hasErrorCode
  simp [List.lookup]
  omega

end BinanceSpec

/-! ## Witnesses -/

namespace BinanceSpec

/-- Witness for C1: the amended theorem applied to the concrete
slice-3-rejection run. -/
theorem twap_abort_discards_partial_results_witness :
    (run_twap_strategy clientRejectAt3 "BTCUSDT" "BUY" 5 5 0).2 =
      .error (.api ⟨400, some (.num (-2019)), "Margin is insufficient."⟩) ∧
    orderCalls (run_twap_strategy clientRejectAt3 "BTCUSDT" "BUY" 5 5 0).1 = 3 := by
  have h := twap_abort_discards_partial_results clientRejectAt3 "BTCUSDT" "BUY"
    "BTCUSDT" "BUY" 5 5 0 2 ⟨400, some (.num (-2019)), "Margin is insufficient."⟩
    (by decide) (by decide) (by decide) (by decide)
    (div_pos (by decide) (Int.cast_pos.mpr (by decide)))
    (by decide) rfl
    (fun j hj => ⟨[("orderId", .num (100 + j)), ("status", .str "FILLED")],
      by simp [clientRejectAt3, hj]⟩)
  exact ⟨h.1, h.2.1⟩

/-- Witness for C2: the round-trip and prefix properties at a concrete
one-entry mapping and secret. -/
theorem signing_equals_transmission_roundtrip_witness :
    parse_qsl (urlencode [(strBytes "symbol", strBytes "BTCUSDT")]) =
      [(strBytes "symbol", strBytes "BTCUSDT")] ∧
    urlencode (sign_params (strBytes "key") [(strBytes "symbol", strBytes "BTCUSDT")]) =
      urlencode [(strBytes "symbol", strBytes "BTCUSDT")] ++ 38 :: (sigKey ++ 61 ::
        hexdigest (hmacSha256 (strBytes "key")
          (urlencode [(strBytes "symbol", strBytes "BTCUSDT")]))) ∧
    parse_qsl (urlencode (sign_params (strBytes "key")
        [(strBytes "symbol", strBytes "BTCUSDT")])) =
      [(strBytes "symbol", strBytes "BTCUSDT")] ++
        [(sigKey, hexdigest (hmacSha256 (strBytes "key")
          (urlencode [(strBytes "symbol", strBytes "BTCUSDT")])))] := by
  exact signing_equals_transmission_roundtrip (strBytes "key")
    [(strBytes "symbol", strBytes "BTCUSDT")] (by decide) (by decide) (by decide)

/-- Witness for C3: the amended theorem applied to an accepted LIMIT order. -/
theorem validator_fields_by_order_type_witness :
    validate_order_input "BTCUSDT" "BUY" "LIMIT" 1 (some 5) none =
      .ok ⟨"BTCUSDT", "BUY", "LIMIT", 1, some 5, none⟩ ∧
    (∃ p, (some (5 : ℚ)) = some p ∧ 0 < p) := by
  have hv : validate_order_input "BTCUSDT" "BUY" "LIMIT" 1 (some 5) none =
      .ok ⟨"BTCUSDT", "BUY", "LIMIT", 1, some 5, none⟩ := by decide
  have h := validator_fields_by_order_type "BTCUSDT" "BUY" "LIMIT" 1 (some 5) none _ hv
  exact ⟨hv, h.1 (Or.inl rfl)⟩

/-- Witness for C4: the classification theorem applied to a concrete 500
response. -/
theorem post_classify_rejected_iff_witness :
    ∃ e : BinanceApiError,
      post_classify ⟨500, some [("msg", .str "err")], ""⟩ = .apiError e ∧
      e.status_code = 500 ∧ e.code = none ∧ e.msg = "err" := by
  have h := post_classify_rejected_iff ⟨500, some [("msg", .str "err")], ""⟩
  obtain ⟨e, he1, he2, he3, he4⟩ := h.1.mpr (Or.inl (by decide))
  exact ⟨e, he1, he2, he3.trans (by decide), he4.trans (by decide)⟩

/-- Witness for C5: the schedule theorem applied to a concrete always-accepting
client. -/
theorem twap_five_slice_schedule_witness :
    run_twap_strategy (fun _ => .ok []) "BTCUSDT" "BUY" 0.01 5 10 =
      ([.validateQty 0.002, .placeOrder 0 0.002, .sleep 10, .placeOrder 1 0.002, .sleep 10,
        .placeOrder 2 0.002, .sleep 10, .placeOrder 3 0.002, .sleep 10, .placeOrder 4 0.002],
       .ok [[], [], [], [], []]) ∧
    run_twap_strategy (fun _ => .ok []) "BTCUSDT" "BUY" 0.01 5 0 =
      ([.validateQty 0.002, .placeOrder 0 0.002, .placeOrder 1 0.002,
        .placeOrder 2 0.002, .placeOrder 3 0.002, .placeOrder 4 0.002],
       .ok [[], [], [], [], []]) := by
  exact twap_five_slice_schedule (fun _ => .ok []) (fun _ => []) "BTCUSDT" "BUY"
    "BTCUSDT" "BUY" (by decide) (by decide) (fun i => rfl)

/-- Witness for C6: both error modes at concrete inputs. -/
theorem validator_missing_price_errors_witness :
    validate_order_input "BTCUSDT" "BUY" "LIMIT" 1 none none =
      .error ⟨"Price must be positive for LIMIT and STOP_LIMIT orders."⟩ ∧
    validate_order_input "BTCUSDT" "BUY" "STOP_LIMIT" 1 (some 5) none =
      .error ⟨"stop_price must be positive for STOP_LIMIT orders."⟩ := by
  constructor
  · exact (validator_missing_price_errors "BTCUSDT" "BUY" "LIMIT" "BTCUSDT" "BUY" "LIMIT"
      1 none none (by decide) (by decide) (by decide) (by decide)).1 (Or.inl rfl) rfl
  · exact (validator_missing_price_errors "BTCUSDT" "BUY" "STOP_LIMIT" "BTCUSDT" "BUY"
      "STOP_LIMIT" 1 (some 5) none (by decide) (by decide) (by decide) (by decide)).2
      rfl (by decide) rfl

/-- Witness for C7: both guards and the single-validation property at concrete
inputs. -/
theorem twap_guards_and_single_validation_witness :
    run_twap_strategy (fun _ => .ok []) "BTCUSDT" "BUY" 1 0 10 =
      ([], .error (.validation ⟨"slices must be a positive integer."⟩)) ∧
    run_twap_strategy (fun _ => .ok []) "BTCUSDT" "BUY" 1 5 (-1) =
      ([], .error (.validation ⟨"interval must be non-negative."⟩)) ∧
    validateCalls (run_twap_strategy (fun _ => .ok []) "BTCUSDT" "BUY" 1 5 0).1 = 1 := by
  refine ⟨?_, ?_, ?_⟩
  · exact (twap_guards_and_single_validation (fun _ => .ok []) "BTCUSDT" "BUY" 1 0 10).1
      (by decide)
  · exact (twap_guards_and_single_validation (fun _ => .ok []) "BTCUSDT" "BUY" 1 5 (-1)).2.1
      (by decide) (by decide)
  · exact ((twap_guards_and_single_validation (fun _ => .ok []) "BTCUSDT" "BUY" 1 5 0).2.2
      (by decide) (by decide)).1

/-- Witness for C8: the append form at a concrete mapping and secret. -/
theorem sign_params_appends_signature_witness :
    sign_params (strBytes "key") [(strBytes "symbol", strBytes "ETHUSDT")] =
      [(strBytes "symbol", strBytes "ETHUSDT")] ++
        [(sigKey, hexdigest (hmacSha256 (strBytes "key")
          (urlencode [(strBytes "symbol", strBytes "ETHUSDT")])))] := by
  exact (sign_params_appends_signature (strBytes "key")
    [(strBytes "symbol", strBytes "ETHUSDT")] (by decide)).1

/-- Witness for C9: default insertion and non-overwriting at concrete
mappings. -/
theorem post_defaults_timestamp_recvWindow_witness :
    List.lookup "timestamp" (postParams 1700000000000 5000 [("symbol", .str "BTCUSDT")]) =
      some (.int 1700000000000) ∧
    List.lookup "recvWindow" (postParams 1700000000000 5000 [("symbol", .str "BTCUSDT")]) =
      some (.int 5000) ∧
    List.lookup "timestamp" (postParams 1700000000000 5000 [("timestamp", ParamVal.int 42)]) =
      some (.int 42) := by
  have h1 := post_defaults_timestamp_recvWindow 1700000000000 5000
    [("symbol", ParamVal.str "BTCUSDT")]
  have h2 := post_defaults_timestamp_recvWindow 1700000000000 5000
    [("timestamp", ParamVal.int 42)]
  exact ⟨h1.1.trans (by decide), h1.2.1.trans (by decide), h2.1.trans (by decide)⟩

/-- Witness for C10: the unparseable-body theorem at a concrete gateway
response. -/
theorem post_unparseable_body_accepted_witness :
    post_classify ⟨200, none, "gateway timeout"⟩ =
      .ok [("raw", JsonVal.str "gateway timeout")] :=
  post_unparseable_body_accepted 200 (by decide) "gateway timeout"

end BinanceSpec
